import Mathlib

/-
Verification of the key-manager backend core against its specification.

Shallow embedding of the repository's credit ledger, AI gateway, payment
lifecycle, provider registry and outbound-proxy manager.  Each definition
is translated from the JavaScript source; the comment above a definition
names the file and function it embeds.  Persistence-layer atomic updates
(Mongo findOneAndUpdate / updateOne) are modelled as single state-transition
functions; non-atomic read-then-write sequences are modelled as separate
load / decide / apply steps so that interleavings of concurrent calls can
be expressed.
-/

set_option linter.unusedVariables false

namespace KeyManagerBackend

/-! ## Credit ledger (models/Key.js, unnamed/part_014) -/

/-- A Key document: caller-facing credential with a credit balance.
Fields from keySchema in unnamed/part_014. -/
structure KeyRec where
  key : String
  isActive : Bool
  credit : Int
  expiredAt : Option Int
deriving Repr, DecidableEq

/-- The atomic conditional decrement performed by
Key.findOneAndUpdate filtering on isActive true and credit greater than 0
with an $inc of -1 (unnamed/part_004 lines 679-683 and index.js 252-258).
The filter and the decrement are one atomic step: the whole operation is a
single function on the key record. -/
def reserveCredit (k : KeyRec) : Option KeyRec :=
  if k.isActive ∧ k.credit > 0 then some { k with credit := k.credit - 1 } else none

/-- The atomic refund increment Key.findByIdAndUpdate with $inc of +1
(unnamed/part_004 line 745). -/
def refundCredit (k : KeyRec) : KeyRec := { k with credit := k.credit + 1 }

/-- n reservation attempts against the same key record.  Each attempt is the
atomic reserveCredit step, so any interleaving of n concurrent requests is
exactly this sequential composition.  Returns the number of successful
reservations and the final record. -/
def runReserves : Nat → KeyRec → Nat × KeyRec
  | 0, k => (0, k)
  | n + 1, k =>
    match reserveCredit k with
    | some k2 =>
      let r := runReserves n k2
      (r.1 + 1, r.2)
    | none => runReserves n k

/-! ## AI gateway (unnamed/part_004, POST /api/ai/generate) -/

/-- Outcome of the upstream provider call: either the provider returned
generated text, or the call threw (network error, non-2xx status, malformed
response). -/
inductive UpstreamOutcome where
  | completed (text : String)
  | failed (msg : String)
deriving Repr, DecidableEq

/-- Response categories of POST /api/ai/generate in unnamed/part_004:
401 missing token, 403 invalid key / insufficient credit,
503 no provider keys, 400 unsupported provider, 500 upstream failure,
200 with generated text and remaining credit. -/
inductive AiResp where
  | unauthorized
  | forbidden
  | serviceUnavailable
  | badRequest
  | upstreamError
  | okText (text : String) (remaining : Int)
deriving Repr, DecidableEq

/-- Result of one gateway request: the response, the caller's key record
afterwards, and how many refund increments were executed. -/
structure AiGenResult where
  resp : AiResp
  callerKey : KeyRec
  refunds : Nat
deriving Repr, DecidableEq

/-- The request flow of POST /api/ai/generate (unnamed/part_004 lines
669-758).  Inputs: the Authorization token, the caller's key record (the
store entry the token is matched against), the provider's configured key
list (none when the provider document is absent), whether the provider name
is supported by the dispatch switch, and the upstream call outcome.
The catch block refunds exactly once whenever a reservation happened
(guard: if updatedKey). -/
def aiGenerate (token : Option String) (k : KeyRec) (providerKeys : Option (List String))
    (supported : Bool) (upstream : UpstreamOutcome) : AiGenResult :=
  match token with
  | none => ⟨AiResp.unauthorized, k, 0⟩
  | some t =>
    match (if t = k.key then reserveCredit k else none) with
    | none => ⟨AiResp.forbidden, k, 0⟩
    | some k1 =>
      match providerKeys with
      | none => ⟨AiResp.serviceUnavailable, refundCredit k1, 1⟩
      | some [] => ⟨AiResp.serviceUnavailable, refundCredit k1, 1⟩
      | some (_ :: _) =>
        if supported then
          match upstream with
          | UpstreamOutcome.completed text => ⟨AiResp.okText text k1.credit, k1, 0⟩
          | UpstreamOutcome.failed _ => ⟨AiResp.upstreamError, refundCredit k1, 1⟩
        else ⟨AiResp.badRequest, refundCredit k1, 1⟩

/-- Response categories of POST /generate in routes/aiProxy.js. -/
inductive AiProxyResp where
  | missingParams
  | providerUnavailable
  | unsupportedProvider
  | okText (text : String)
  | genFailed (msg : String)
deriving Repr, DecidableEq

/-- The request flow of router.post on /generate in routes/aiProxy.js
(lines 41-123), the variant mounted at /api/ai by server.js.  Validates
prompt and provider, checks the provider has a usable upstream key,
dispatches, and returns.  The credit deduction and the refund are
commented-out TODO blocks (lines 63-70 and 105-107), so the caller's key
record is never touched on any path. -/
def aiProxyGenerate (hasPrompt hasProvider hasValidKey supported : Bool)
    (upstream : UpstreamOutcome) (k : KeyRec) : AiProxyResp × KeyRec :=
  if hasPrompt = false ∨ hasProvider = false then (AiProxyResp.missingParams, k)
  else if hasValidKey = false then (AiProxyResp.providerUnavailable, k)
  else if supported = false then (AiProxyResp.unsupportedProvider, k)
  else
    match upstream with
    | UpstreamOutcome.completed t => (AiProxyResp.okText t, k)
    | UpstreamOutcome.failed m => (AiProxyResp.genFailed m, k)

/-! ## Payment lifecycle (models/Payment.js in unnamed/part_017 and
services/paymentService.js) -/

/-- Payment status enum from paymentSchema (unnamed/part_017 lines 19-23). -/
inductive PayStatus where
  | pending
  | completed
  | failed
  | expired
deriving Repr, DecidableEq

/-- The fields of a Payment document relevant to completion and expiry. -/
structure Payment where
  status : PayStatus
  creditAmount : Int
  expiredAt : Int
  transactionId : Option String
deriving Repr, DecidableEq

/-- The slice of the store touched by completePayment: the payment and the
credit balance of the Key named by its userKey. -/
structure PayLedgerState where
  payment : Payment
  keyCredit : Int
deriving Repr, DecidableEq

/-- paymentSchema.methods.isExpired (unnamed/part_017 lines 68-70):
new Date() is strictly greater than expiredAt. -/
def paymentIsExpired (now : Int) (p : Payment) : Bool := now > p.expiredAt

/-- paymentSchema.methods.markAsFailed (unnamed/part_017 lines 79-82). -/
def markAsFailed (p : Payment) : Payment := { p with status := PayStatus.failed }

/-- paymentSchema.methods.markAsCompleted (unnamed/part_017 lines 72-77). -/
def markAsCompleted (txn : String) (p : Payment) : Payment :=
  { p with status := PayStatus.completed, transactionId := some txn }

/-- What one completePayment call decides to do, from the snapshot of the
payment it loaded (services/paymentService.js lines 421-440): reject when
the loaded status is not pending, fail when the loaded payment is expired,
otherwise grant. -/
inductive CpDecision where
  | rejectNotPending
  | failExpired
  | grant
deriving Repr, DecidableEq

/-- Micro-step 1 of completePayment: Payment.findById, a plain read
(services/paymentService.js line 421). -/
def cpLoad (s : PayLedgerState) : Payment := s.payment

/-- Micro-step 2 of completePayment: the status and expiry checks, computed
from the loaded snapshot only (services/paymentService.js lines 433-440). -/
def cpDecide (now : Int) (snap : Payment) : CpDecision :=
  if snap.status ≠ PayStatus.pending then CpDecision.rejectNotPending
  else if paymentIsExpired now snap then CpDecision.failExpired
  else CpDecision.grant

/-- Micro-step 3 of completePayment: the writes.  On grant: the $inc credit
grant (line 451) followed by markAsCompleted (line 458); on expiry:
markAsFailed (line 438); on reject: no write.  The decision comes from the
snapshot, the writes hit the current store state: the code gives no
conditional update keyed on the stored status at write time. -/
def cpApply (now : Int) (txn : String) (snap : Payment) (s : PayLedgerState) : PayLedgerState :=
  match cpDecide now snap with
  | CpDecision.rejectNotPending => s
  | CpDecision.failExpired => { s with payment := markAsFailed s.payment }
  | CpDecision.grant =>
    { payment := markAsCompleted txn s.payment,
      keyCredit := s.keyCredit + snap.creditAmount }

/-- Error signals thrown by completePayment. -/
inductive CompleteError where
  | notPending
  | expiredPayment
deriving Repr, DecidableEq

/-- paymentService.completePayment (services/paymentService.js lines
417-472) run in isolation: load, decide from the snapshot, apply.  On
success it returns the new credit balance. -/
def completePayment (now : Int) (txn : String) (s : PayLedgerState) :
    Except CompleteError Int × PayLedgerState :=
  let snap := cpLoad s
  let s2 := cpApply now txn snap s
  match cpDecide now snap with
  | CpDecision.rejectNotPending => (Except.error CompleteError.notPending, s2)
  | CpDecision.failExpired => (Except.error CompleteError.expiredPayment, s2)
  | CpDecision.grant => (Except.ok s2.keyCredit, s2)

/-- paymentSchema.statics.cleanup (unnamed/part_017 lines 94-106): one
updateMany step moving a pending payment whose expiredAt has passed to
expired; the filter and the write are one conditional update. -/
def cleanupPayment (now : Int) (s : PayLedgerState) : PayLedgerState :=
  if s.payment.status = PayStatus.pending ∧ s.payment.expiredAt < now then
    { s with payment := { s.payment with status := PayStatus.expired } }
  else s

/-! ## PayOS webhook route (unnamed/part_008, POST /api/payment/webhook/payos) -/

/-- The fields of the webhook body the route reads. -/
structure WebhookBody where
  code : String
  status : String
  orderCode : Int
deriving Repr, DecidableEq

/-- Response categories of the webhook route: the 200 success
acknowledgement, or the 500 its catch block returns when processing
throws. -/
inductive WebhookResp where
  | ok
  | serverError
deriving Repr, DecidableEq

/-- Evaluation of Payment.findOne on the webhook path (unnamed/part_008
line 253).  The file's imports are express, the payment service and the
audit logger only (lines 1-4); no Payment model is required or defined in
scope, so evaluating the identifier Payment throws a ReferenceError before
any query runs.  The store argument is the pending payment the query would
find, were the identifier defined. -/
def payosWebhookLookup (store : Option PayLedgerState) :
    Except String (Option PayLedgerState) :=
  Except.error "ReferenceError: Payment is not defined"

/-- router.post on /webhook/payos (unnamed/part_008 lines 240-274).  The
sigValid argument stands for the verdict of any signature verification of
the request; the route's verification line is commented out (line 247), so
the handler never reads it.  It branches on code and status from the
unverified body; on code 00 and status PAID it evaluates Payment.findOne,
whose ReferenceError lands in the catch block (lines 270-273) as a 500.
The completion call below the lookup mirrors the source text but is
unreachable.  The Bool of the result records whether completePayment was
invoked. -/
def payosWebhook (now : Int) (body : WebhookBody) (sigValid : Bool) (txn : String)
    (store : Option PayLedgerState) : WebhookResp × Option PayLedgerState × Bool :=
  if body.code = "00" ∧ body.status = "PAID" then
    match payosWebhookLookup store with
    | Except.error _ => (WebhookResp.serverError, store, false)
    | Except.ok found =>
      match found with
      | some s =>
        if s.payment.status = PayStatus.pending then
          (WebhookResp.ok, some (completePayment now txn s).2, true)
        else (WebhookResp.ok, found, false)
      | none => (WebhookResp.ok, found, false)
  else (WebhookResp.ok, store, false)

/-! ## Provider registry (services/apiKeyManager.js in unnamed/part_003) -/

/-- One entry of a provider's keyStatus array (models/ApiProvider.js). -/
structure KeyStatus where
  key : String
  isActive : Bool
  quotaExceeded : Bool
  lastUsed : Option Int
  lastError : Option String
  lastErrorTime : Option Int
  requestCount : Nat
deriving Repr, DecidableEq

/-- The fresh status entry pushed by syncKeyStatus for a key that lacks one
(unnamed/part_003 lines 137-142). -/
def freshKeyStatus (k : String) : KeyStatus :=
  { key := k, isActive := true, quotaExceeded := false, lastUsed := none,
    lastError := none, lastErrorTime := none, requestCount := 0 }

/-- First loop of syncKeyStatus (unnamed/part_003 lines 134-145): for each
configured api key, append a fresh status entry unless some entry with that
key already exists. -/
def addMissingStatus (apiKeys : List String) (ks : List KeyStatus) : List KeyStatus :=
  apiKeys.foldl
    (fun acc k => if acc.any (fun s => s.key = k) then acc else acc ++ [freshKeyStatus k]) ks

/-- ApiKeyManager.syncKeyStatus (unnamed/part_003 lines 130-155): append
missing entries, then drop entries whose key is no longer configured. -/
def syncKeyStatus (apiKeys : List String) (ks : List KeyStatus) : List KeyStatus :=
  (addMissingStatus apiKeys ks).filter (fun s => apiKeys.contains s.key)

/-- An ApiProvider document slice: configured keys and their status list. -/
structure Provider where
  apiKeys : List String
  keyStatus : List KeyStatus
deriving Repr, DecidableEq

/-- JS measure for the lastUsed sort comparator a.lastUsed or new Date(0)
(unnamed/part_003 line 41): a missing date counts as the epoch. -/
def usedMeasure (s : KeyStatus) : Int := s.lastUsed.getD 0

/-- JS measure for the lastErrorTime fallback comparator
(unnamed/part_003 line 29). -/
def errMeasure (s : KeyStatus) : Int := s.lastErrorTime.getD 0

/-- Fold computing the leftmost element of least measure.  JS Array sort
with comparator a - b is a stable ascending sort, so taking index 0 of the
sorted array is exactly the leftmost minimum of the original. -/
def argminAcc (f : α → Int) : Option α → List α → Option α
  | acc, [] => acc
  | none, x :: xs => argminAcc f (some x) xs
  | some a, x :: xs => argminAcc f (some (if f x < f a then x else a)) xs

/-- Leftmost element of least measure: models sort-ascending-then-take-head. -/
def argminFirst (f : α → Int) (l : List α) : Option α := argminAcc f none l

/-- The status list getBestApiKey works on after its syncKeyStatus call. -/
def syncedStatus (p : Provider) : List KeyStatus := syncKeyStatus p.apiKeys p.keyStatus

/-- availableKeys in getBestApiKey (unnamed/part_003 lines 21-23). -/
def availableOf (p : Provider) : List KeyStatus :=
  (syncedStatus p).filter (fun s => s.isActive && !s.quotaExceeded)

/-- The isActive filter used by the fallback branch (unnamed/part_003 line 28). -/
def activesOf (p : Provider) : List KeyStatus :=
  (syncedStatus p).filter (fun s => s.isActive)

/-- The two hard failures getBestApiKey can throw. -/
inductive KeySelectError where
  | noKeysConfigured
  | allExhausted
deriving Repr, DecidableEq

/-- ApiKeyManager.getBestApiKey (unnamed/part_003 lines 8-47).  The prov
argument is none when no provider document matches the case-insensitive
name lookup.  Throws when no keys are configured; otherwise syncs, prefers
the least-recently-used key among active non-quota-exceeded entries, falls
back to the active key with the oldest lastErrorTime, and throws exhausted
only when no active entry exists. -/
def getBestApiKey (prov : Option Provider) : Except KeySelectError String :=
  match prov with
  | none => Except.error KeySelectError.noKeysConfigured
  | some p =>
    if p.apiKeys = [] then Except.error KeySelectError.noKeysConfigured
    else
      match argminFirst usedMeasure (availableOf p) with
      | some best => Except.ok best.key
      | none =>
        match argminFirst errMeasure (activesOf p) with
        | some fb => Except.ok fb.key
        | none => Except.error KeySelectError.allExhausted

/-- Character-list version of JS String startsWith over the raw characters. -/
def charsStartWith : List Char → List Char → Bool
  | [], _ => true
  | _ :: _, [] => false
  | p :: ps, t :: ts => p = t && charsStartWith ps ts

/-- Occurrence of a character pattern anywhere in a character list. -/
def charsOccurIn (pat : List Char) : List Char → Bool
  | [] => charsStartWith pat []
  | t :: ts => charsStartWith pat (t :: ts) || charsOccurIn pat ts

/-- JS String includes: pat occurs as a contiguous substring of msg. -/
def msgContains (msg pat : String) : Bool := charsOccurIn pat.data msg.data

/-- The quota condition of markKeyError (unnamed/part_003 line 84). -/
def quotaSignal (errorType msg : String) : Bool :=
  errorType = "quota_exceeded" || msgContains msg "429" || msgContains msg "quota"

/-- The invalid-credential condition of markKeyError (unnamed/part_003 line 89). -/
def invalidSignal (errorType msg : String) : Bool :=
  errorType = "invalid_key" || msgContains msg "invalid" || msgContains msg "401"

/-- The field updates markKeyError applies to the matched status entry
(unnamed/part_003 lines 78-99): always set lastError and lastErrorTime;
set quotaExceeded on a quota signal; clear isActive on an invalid signal. -/
def applyKeyError (now : Int) (errorType msg : String) (s : KeyStatus) : KeyStatus :=
  let s1 := { s with lastError := some msg, lastErrorTime := some now }
  let s2 := if quotaSignal errorType msg then { s1 with quotaExceeded := true } else s1
  if invalidSignal errorType msg then { s2 with isActive := false } else s2

/-- Update the first element satisfying p, as the Mongo positional operator
keyStatus dollar-sign updates the first matching array element. -/
def updateFirst (p : α → Bool) (f : α → α) : List α → List α
  | [] => []
  | x :: xs => if p x then f x :: xs else x :: updateFirst p f xs

/-- ApiKeyManager.markKeyError (unnamed/part_003 lines 76-104) restricted to
the matched provider document: update the first status entry whose key
matches. -/
def markKeyError (apiKey errorType msg : String) (now : Int)
    (ks : List KeyStatus) : List KeyStatus :=
  updateFirst (fun s => s.key = apiKey) (applyKeyError now errorType msg) ks

/-! ## Outbound proxy manager (services/proxyManager.js) -/

/-- The slice of a Proxy document used by request routing and assignment. -/
structure ProxyRec where
  pid : Nat
  isActive : Bool
  assignedApiKey : Option String
deriving Repr, DecidableEq

/-- A thrown JS error as seen by shouldRetry: its code property and its
message string. -/
structure JsError where
  code : Option String
  message : String
deriving Repr, DecidableEq

/-- The retryable network error codes (services/proxyManager.js lines 187-193). -/
def retryableCodes : List String :=
  ["ECONNREFUSED", "ETIMEDOUT", "ENOTFOUND", "ECONNRESET", "EHOSTUNREACH"]

/-- ProxyManager.shouldRetry (services/proxyManager.js lines 186-196):
some listed code equals the error code or occurs in the message. -/
def shouldRetry (e : JsError) : Bool :=
  retryableCodes.any (fun c => e.code = some c || msgContains e.message c)

/-- Outcome of one fetch call: an HTTP response (any status: fetch does not
throw on non-2xx) or a thrown network error. -/
inductive FetchOutcome where
  | resp (status : Nat) (body : String)
  | netError (e : JsError)
deriving Repr, DecidableEq

/-- A fetch outcome as the value makeRequestWithProxy returns or throws. -/
def fetchResult : FetchOutcome → Except JsError (Nat × String)
  | FetchOutcome.resp st b => Except.ok (st, b)
  | FetchOutcome.netError e => Except.error e

instance decEqExcept [DecidableEq ε] [DecidableEq α] : DecidableEq (Except ε α)
  | Except.ok a, Except.ok b => decidable_of_iff (a = b) (by simp)
  | Except.ok _, Except.error _ => isFalse (by simp)
  | Except.error _, Except.ok _ => isFalse (by simp)
  | Except.error a, Except.error b => decidable_of_iff (a = b) (by simp)

/-- Observable trace of one makeRequestWithProxy call: the returned or
thrown value, the (proxyId, success) stats records written, whether the
proxied transport was used, and whether a direct retry happened. -/
structure ProxyRequestTrace where
  result : Except JsError (Nat × String)
  statsRecorded : List (Nat × Bool)
  usedProxy : Bool
  retriedDirect : Bool
deriving Repr, DecidableEq

/-- ProxyManager.makeRequestWithProxy (services/proxyManager.js lines
103-152).  Inputs: the proxy lookup result for the api key, whether
createProxyAgent produced an agent, the outcome of the proxied fetch, and
the outcome a direct (agentless) fetch would have.  No proxy or no agent:
direct fetch, nothing recorded.  Proxied success: record success.  Proxied
throw: record failure, then retry once directly when the error is
retryable, otherwise rethrow. -/
def makeRequestWithProxy (proxyLookup : Option ProxyRec) (agentOk : Bool)
    (proxiedOutcome directOutcome : FetchOutcome) : ProxyRequestTrace :=
  match proxyLookup with
  | none =>
    { result := fetchResult directOutcome, statsRecorded := [],
      usedProxy := false, retriedDirect := false }
  | some p =>
    if agentOk = false then
      { result := fetchResult directOutcome, statsRecorded := [],
        usedProxy := false, retriedDirect := false }
    else
      match proxiedOutcome with
      | FetchOutcome.resp st b =>
        { result := Except.ok (st, b), statsRecorded := [(p.pid, true)],
          usedProxy := true, retriedDirect := false }
      | FetchOutcome.netError e =>
        if shouldRetry e then
          { result := fetchResult directOutcome, statsRecorded := [(p.pid, false)],
            usedProxy := true, retriedDirect := true }
        else
          { result := Except.error e, statsRecorded := [(p.pid, false)],
            usedProxy := true, retriedDirect := false }

/-! ## Proxy auto-assignment (unnamed/part_009, POST /auto-assign) -/

/-- The unassigned test of the availability query (unnamed/part_009 lines
730-736): assignedApiKey is null or the empty string. -/
def proxyUnassigned (p : ProxyRec) : Bool :=
  p.assignedApiKey = none || p.assignedApiKey = some ""

/-- Proxy.findOne on assignedApiKey equal to the api key
(unnamed/part_009 line 711). -/
def findAssignedProxy (k : String) (ps : List ProxyRec) : Option ProxyRec :=
  ps.find? (fun p => p.assignedApiKey = some k)

/-- Proxy.findOne for an active unassigned proxy (unnamed/part_009 lines
730-736). -/
def findAvailableProxy (ps : List ProxyRec) : Option ProxyRec :=
  ps.find? (fun p => p.isActive && proxyUnassigned p)

/-- The save of availableProxy.assignedApiKey = apiKey (unnamed/part_009
lines 738-740): a plain write to the document with that id, with no
condition on the stored assignedApiKey at write time. -/
def writeAssign (pid : Nat) (k : String) (ps : List ProxyRec) : List ProxyRec :=
  ps.map (fun p => if p.pid = pid then { p with assignedApiKey := some k } else p)

/-- Per-key outcome reported by the auto-assign loop. -/
inductive AssignOutcome where
  | alreadyAssigned (pid : Nat)
  | assigned (pid : Nat)
  | noProxyAvailable
deriving Repr, DecidableEq

/-- One iteration of the auto-assign loop for one api key with forceReassign
false (unnamed/part_009 lines 708-756): report already_assigned when a
proxy is bound to the key, otherwise bind the first active unassigned proxy
by an unconditional save, otherwise report no_proxy_available. -/
def assignOne (k : String) (ps : List ProxyRec) : AssignOutcome × List ProxyRec :=
  match findAssignedProxy k ps with
  | some p => (AssignOutcome.alreadyAssigned p.pid, ps)
  | none =>
    match findAvailableProxy ps with
    | some p => (AssignOutcome.assigned p.pid, writeAssign p.pid k ps)
    | none => (AssignOutcome.noProxyAvailable, ps)

/-- The sequential auto-assign loop over the keys of the selected providers. -/
def assignKeys : List String → List ProxyRec → List AssignOutcome × List ProxyRec
  | [], ps => ([], ps)
  | k :: rest, ps =>
    let r1 := assignOne k ps
    let r2 := assignKeys rest r1.2
    (r1.1 :: r2.1, r2.2)

/-- The proxy ids of the outcomes that report a fresh binding. -/
def assignedPids (outs : List AssignOutcome) : List Nat :=
  outs.filterMap fun o =>
    match o with
    | AssignOutcome.assigned pid => some pid
    | _ => none

/-- No element with this pid is unassigned: the state invariant that makes a
proxy unavailable to later assignments. -/
def pidTaken (pid : Nat) (ps : List ProxyRec) : Prop :=
  ∀ p ∈ ps, p.pid = pid → proxyUnassigned p = false

/-! ## Concrete inputs used by counterexamples and witnesses -/

/-- A caller key used by witnesses. -/
def demoKey : KeyRec := { key := "caller-1", isActive := true, credit := 2, expiredAt := none }

/-- A caller key for the aiProxy route evaluation. -/
def demoProxyKey : KeyRec := { key := "caller-2", isActive := true, credit := 5, expiredAt := none }

/-- An expired but active key with positive credit. -/
def demoExpiredKey : KeyRec :=
  { key := "caller-3", isActive := true, credit := 3, expiredAt := some 10 }

/-- A pending payment over 100 credits with its user key at balance 0. -/
def c3Init : PayLedgerState :=
  { payment := { status := PayStatus.pending, creditAmount := 100, expiredAt := 1000,
                 transactionId := none },
    keyCredit := 0 }

/-- The interleaving of two concurrent completePayment calls on c3Init in
which both calls load the payment before either writes: both snapshots
show pending, so both decide to grant. -/
def c3DoubleRun : PayLedgerState :=
  let snapA := cpLoad c3Init
  let snapB := cpLoad c3Init
  let s1 := cpApply 500 "TXN-A" snapA c3Init
  cpApply 500 "TXN-B" snapB s1

/-- A pending payment used by the payment witnesses. -/
def c4Init : PayLedgerState :=
  { payment := { status := PayStatus.pending, creditAmount := 40, expiredAt := 300,
                 transactionId := none },
    keyCredit := 7 }

/-- A webhook body reporting a paid order. -/
def c6Body : WebhookBody := { code := "00", status := "PAID", orderCode := 123 }

/-- The pending payment the webhook's orderCode lookup finds. -/
def c6State : PayLedgerState :=
  { payment := { status := PayStatus.pending, creditAmount := 50, expiredAt := 1000,
                 transactionId := none },
    keyCredit := 10 }

/-- A provider with one quota-exceeded key and one fresh key. -/
def c7Provider : Provider :=
  { apiKeys := ["gk-1", "gk-2"],
    keyStatus :=
      [{ key := "gk-1", isActive := true, quotaExceeded := true, lastUsed := some 100,
         lastError := some "429 quota", lastErrorTime := some 100, requestCount := 9 },
       { key := "gk-2", isActive := true, quotaExceeded := false, lastUsed := some 50,
         lastError := none, lastErrorTime := none, requestCount := 3 }] }

/-- A status list holding two entries for the same key. -/
def c8Dup : List KeyStatus := [freshKeyStatus "k", freshKeyStatus "k"]

/-- A pool with a single active unassigned proxy. -/
def c5Init : List ProxyRec := [{ pid := 1, isActive := true, assignedApiKey := none }]

/-- A pool with two active unassigned proxies, for the sequential witness. -/
def c5Pool2 : List ProxyRec :=
  [{ pid := 1, isActive := true, assignedApiKey := none },
   { pid := 2, isActive := true, assignedApiKey := none }]

/-- A proxy record used by the request-routing witness. -/
def demoProxy : ProxyRec := { pid := 9, isActive := true, assignedApiKey := some "gk-2" }

/-- A retryable connection-reset error. -/
def demoResetError : JsError := { code := some "ECONNRESET", message := "socket hang up" }

/-- The pool after the interleaving in which two concurrent auto-assign
calls for the keys key-A and key-B both run findAvailableProxy on c5Init
(both get proxy 1) and then both run their unconditional write. -/
def c5AfterWrites : List ProxyRec := writeAssign 1 "key-B" (writeAssign 1 "key-A" c5Init)

/-! ## Theorems -/

theorem reserveCredit_some_iff (k : KeyRec) (k2 : KeyRec) :
    reserveCredit k = some k2 ↔
      (k.isActive = true ∧ 0 < k.credit ∧ k2 = { k with credit := k.credit - 1 }) := by
  unfold reserveCredit
  split
  · rename_i hc
    simp only [Option.some.injEq]
    constructor
    · intro h
      exact ⟨hc.1, hc.2, h.symm⟩
    · intro h
      exact h.2.2.symm
  · rename_i hc
    simp only [not_and_or] at hc
    constructor
    · intro h
      cases h
    · intro h
      rcases hc with hc | hc
      · exact absurd h.1 hc
      · exact absurd h.2.1 hc

/-- C1: for any number n of reservation attempts against a key whose
balance starts at B with 0 ≤ B, each attempt being the single atomic
conditional decrement of Key.findOneAndUpdate, the number of successful
reservations never exceeds B, the final stored balance equals B minus the
number of successes, and the stored balance is never negative. -/
theorem reserveCredit_no_overdraft (n : Nat) (k : KeyRec) (h : 0 ≤ k.credit) :
    ((runReserves n k).1 : Int) ≤ k.credit
    ∧ (runReserves n k).2.credit = k.credit - (runReserves n k).1
    ∧ 0 ≤ (runReserves n k).2.credit := by
  induction n generalizing k with
  | zero =>
    simp [runReserves]
    omega
  | succ n ih =>
    cases hr : reserveCredit k with
    | none =>
      have := ih k h
      simpa [runReserves, hr] using this
    | some k2 =>
      have hfacts := (reserveCredit_some_iff k k2).mp hr
      have hk2 : k2.credit = k.credit - 1 := by rw [hfacts.2.2]
      have hpos : 0 < k.credit := hfacts.2.1
      have h2 : 0 ≤ k2.credit := by omega
      obtain ⟨ihA, ihB, ihC⟩ := ih k2 h2
      simp only [runReserves, hr]
      refine ⟨?_, ?_, ?_⟩ <;> push_cast <;> omega

/-- C1 witness: five attempts against a balance of two. -/
theorem reserveCredit_no_overdraft_witness :
    (0:Int) ≤ demoKey.credit
    ∧ (((runReserves 5 demoKey).1 : Int) ≤ demoKey.credit
       ∧ (runReserves 5 demoKey).2.credit = demoKey.credit - (runReserves 5 demoKey).1
       ∧ 0 ≤ (runReserves 5 demoKey).2.credit) :=
  ⟨by decide, reserveCredit_no_overdraft 5 demoKey (by decide)⟩

theorem reserveCredit_expiry_map (k : KeyRec) (t : Option Int) :
    reserveCredit { k with expiredAt := t } =
      (reserveCredit k).map (fun r => { r with expiredAt := t }) := by
  unfold reserveCredit
  by_cases hc : k.isActive = true ∧ 0 < k.credit
  · rw [if_pos ⟨hc.1, hc.2⟩, if_pos hc]
    rfl
  · rw [if_neg, if_neg hc]
    · rfl
    · simpa using hc

/-- C10: the credit-reservation filter on the AI generate path consults only
isActive and credit, never expiredAt: reservation commutes with any change
of the expiredAt field; an active key with positive credit is reserved no
matter what expiredAt holds; and the whole generate flow treats a key with
any expiredAt exactly like the same key with any other expiredAt. -/
theorem aiGenerate_ignores_key_expiry :
    (∀ (k : KeyRec) (t : Option Int),
       reserveCredit { k with expiredAt := t } =
         (reserveCredit k).map (fun r => { r with expiredAt := t }))
    ∧ (∀ k : KeyRec, k.isActive = true → 0 < k.credit →
         reserveCredit k = some { k with credit := k.credit - 1 })
    ∧ (∀ (tok : Option String) (k : KeyRec) (t : Option Int)
         (pk : Option (List String)) (sup : Bool) (up : UpstreamOutcome),
         aiGenerate tok { k with expiredAt := t } pk sup up =
           { resp := (aiGenerate tok k pk sup up).resp,
             callerKey := { (aiGenerate tok k pk sup up).callerKey with expiredAt := t },
             refunds := (aiGenerate tok k pk sup up).refunds }) := by
  refine ⟨reserveCredit_expiry_map, ?_, ?_⟩
  · intro k h1 h2
    exact (reserveCredit_some_iff k _).mpr ⟨h1, h2, rfl⟩
  · intro tok k t pk sup up
    cases tok with
    | none => rfl
    | some t0 =>
      by_cases hm : t0 = k.key
      · simp only [aiGenerate, hm, eq_self_iff_true, if_true, reserveCredit_expiry_map]
        cases hr : reserveCredit k with
        | none => simp only [hr, Option.map_none']
        | some k1 =>
          simp only [hr, Option.map_some']
          cases pk with
          | none => rfl
          | some l =>
            cases l with
            | nil => rfl
            | cons a as =>
              cases sup with
              | false => rfl
              | true =>
                cases up with
                | completed text => rfl
                | failed m => rfl
      · simp only [aiGenerate, if_neg hm]

/-- C10 witness: an active key with credit 3 whose expiredAt lies in the
past is reserved all the same. -/
theorem aiGenerate_ignores_key_expiry_witness :
    demoExpiredKey.isActive = true ∧ 0 < demoExpiredKey.credit
    ∧ reserveCredit demoExpiredKey =
        some { demoExpiredKey with credit := demoExpiredKey.credit - 1 } :=
  ⟨rfl, by decide,
   aiGenerate_ignores_key_expiry.2.1 demoExpiredKey rfl (by decide)⟩

/-- C2: the generate route of routes/aiProxy.js, the one server.js mounts at
/api/ai, performs no credit movement at all: on the failing input where the
upstream provider call completes, the caller's key record is returned
untouched (net change 0, not the required -1); the deduction and the refund
exist only as commented-out TODO blocks. -/
theorem aiProxyRoute_no_credit_movement :
    aiProxyGenerate true true true true (UpstreamOutcome.completed "hello") demoProxyKey
      = (AiProxyResp.okText "hello", demoProxyKey)
    ∧ demoProxyKey.credit = 5
    ∧ (∀ (hp hv hk sup : Bool) (up : UpstreamOutcome) (k : KeyRec),
        (aiProxyGenerate hp hv hk sup up k).2 = k) := by
  refine ⟨rfl, rfl, ?_⟩
  intro hp hv hk sup up k
  unfold aiProxyGenerate
  split
  · rfl
  · split
    · rfl
    · split
      · rfl
      · cases up <;> rfl

/-- The gateway of unnamed/part_004 does satisfy the refund discipline: net
credit change is -1 exactly on the success response, 0 on every other path,
and the refund runs exactly once per reservation that did not commit. -/
theorem aiGenerate_refund_discipline (tok : Option String) (k : KeyRec)
    (pk : Option (List String)) (sup : Bool) (up : UpstreamOutcome) :
    ((∃ text rem, (aiGenerate tok k pk sup up).resp = AiResp.okText text rem) →
       (aiGenerate tok k pk sup up).callerKey.credit = k.credit - 1
       ∧ (aiGenerate tok k pk sup up).refunds = 0)
    ∧ ((∀ text rem, (aiGenerate tok k pk sup up).resp ≠ AiResp.okText text rem) →
       (aiGenerate tok k pk sup up).callerKey.credit = k.credit)
    ∧ (aiGenerate tok k pk sup up).refunds ≤ 1 := by
  cases tok with
  | none => simp [aiGenerate]
  | some t0 =>
    by_cases hm : t0 = k.key
    · simp only [aiGenerate, hm, eq_self_iff_true, if_true]
      cases hr : reserveCredit k with
      | none => simp [hr]
      | some k1 =>
        have hk1 : k1.credit = k.credit - 1 := by
          rw [((reserveCredit_some_iff k k1).mp hr).2.2]
        simp only [hr]
        cases pk with
        | none => simp [refundCredit, hk1]
        | some l =>
          cases l with
          | nil => simp [refundCredit, hk1]
          | cons a as =>
            cases sup with
            | false => simp [refundCredit, hk1]
            | true =>
              cases up with
              | completed text => simp [hk1]
              | failed m => simp [refundCredit, hk1]
    · simp [aiGenerate, if_neg hm]

/-- C3 counterexample: the interleaving of two concurrent completePayment
calls on the same pending payment in which both load before either writes.
Both snapshots show pending, both calls grant, and the user key receives
200 credits for a payment of creditAmount 100: the grant is not exactly
once, because the read-check-write sequence is not conditioned on the
stored status at write time. -/
theorem completePayment_concurrent_double_grant :
    c3DoubleRun.keyCredit = 200
    ∧ c3Init.payment.creditAmount = 100
    ∧ c3DoubleRun.keyCredit ≠ c3Init.keyCredit + c3Init.payment.creditAmount := by
  refine ⟨rfl, rfl, ?_⟩
  decide

/-- C3 amended: calling completePayment twice sequentially on the same
payment grants creditAmount exactly once; the second call finds the status
completed, performs no credit movement, and is rejected with the
not-pending signal.  (Concurrent interleaved calls can double-grant, see
the counterexample.) -/
theorem completePayment_sequential_exactly_once (now1 now2 : Int) (t1 t2 : String)
    (s : PayLedgerState) (hp : s.payment.status = PayStatus.pending)
    (he : ¬ now1 > s.payment.expiredAt) :
    (completePayment now1 t1 s).1 = Except.ok (s.keyCredit + s.payment.creditAmount)
    ∧ (completePayment now1 t1 s).2.keyCredit = s.keyCredit + s.payment.creditAmount
    ∧ (completePayment now1 t1 s).2.payment.status = PayStatus.completed
    ∧ completePayment now2 t2 (completePayment now1 t1 s).2
        = (Except.error CompleteError.notPending, (completePayment now1 t1 s).2) := by
  have hd : cpDecide now1 s.payment = CpDecision.grant := by
    unfold cpDecide
    rw [if_neg (by simp [hp])]
    rw [if_neg (by simpa [paymentIsExpired] using he)]
  have h1 : completePayment now1 t1 s =
      (Except.ok (s.keyCredit + s.payment.creditAmount),
       { payment := markAsCompleted t1 s.payment,
         keyCredit := s.keyCredit + s.payment.creditAmount }) := by
    simp only [completePayment, cpLoad, cpApply, hd]
  have h2 : cpDecide now2 (markAsCompleted t1 s.payment) = CpDecision.rejectNotPending := by
    unfold cpDecide
    rw [if_pos (by simp [markAsCompleted])]
  rw [h1]
  refine ⟨rfl, rfl, rfl, ?_⟩
  simp only [completePayment, cpLoad, cpApply, h2]

/-- C3 witness for the amended theorem: a concrete pending payment settled
once, with the redundant second call rejected. -/
theorem completePayment_sequential_exactly_once_witness :
    c4Init.payment.status = PayStatus.pending
    ∧ ¬ (100:Int) > c4Init.payment.expiredAt
    ∧ ((completePayment 100 "T1" c4Init).1
         = Except.ok (c4Init.keyCredit + c4Init.payment.creditAmount)
       ∧ (completePayment 100 "T1" c4Init).2.keyCredit
           = c4Init.keyCredit + c4Init.payment.creditAmount
       ∧ (completePayment 100 "T1" c4Init).2.payment.status = PayStatus.completed
       ∧ completePayment 200 "T2" (completePayment 100 "T1" c4Init).2
           = (Except.error CompleteError.notPending, (completePayment 100 "T1" c4Init).2)) :=
  ⟨rfl, by decide,
   completePayment_sequential_exactly_once 100 200 "T1" "T2" c4Init rfl (by decide)⟩

/-- C4: a payment whose expiredAt lies in the past can never reach status
completed nor cause a credit grant: completePayment rejects it with the
expired signal after marking it failed (when it was pending), every
decide-apply execution from any snapshot taken after expiry leaves the
balance unchanged and cannot write status completed, and the periodic
cleanup moves a pending expired payment to status expired only, with no
credit effect. -/
theorem expiredPayment_never_completed (now : Int) (txn : String) (s : PayLedgerState)
    (snap : Payment) (h : now > s.payment.expiredAt) (hs : now > snap.expiredAt) :
    (completePayment now txn s).2.keyCredit = s.keyCredit
    ∧ (s.payment.status = PayStatus.pending →
        completePayment now txn s =
          (Except.error CompleteError.expiredPayment,
           { s with payment := markAsFailed s.payment }))
    ∧ cpDecide now snap ≠ CpDecision.grant
    ∧ (cpApply now txn snap s).keyCredit = s.keyCredit
    ∧ (s.payment.status ≠ PayStatus.completed →
        (cpApply now txn snap s).payment.status ≠ PayStatus.completed)
    ∧ (cleanupPayment now s).keyCredit = s.keyCredit
    ∧ (s.payment.status = PayStatus.pending →
        (cleanupPayment now s).payment.status = PayStatus.expired)
    ∧ (cleanupPayment now s = s
       ∨ (cleanupPayment now s).payment.status = PayStatus.expired) := by
  have hdec : ∀ p : Payment, now > p.expiredAt → cpDecide now p ≠ CpDecision.grant := by
    intro p hp hcon
    unfold cpDecide at hcon
    by_cases h0 : p.status = PayStatus.pending
    · rw [if_neg (by simp [h0])] at hcon
      rw [if_pos (by simpa [paymentIsExpired] using hp)] at hcon
      cases hcon
    · rw [if_pos (by simpa using h0)] at hcon
      cases hcon
  have happly : ∀ (sn : Payment) (st : PayLedgerState), now > sn.expiredAt →
      (cpApply now txn sn st).keyCredit = st.keyCredit := by
    intro sn st hsn
    unfold cpApply
    cases hc : cpDecide now sn with
    | rejectNotPending => simp [hc]
    | failExpired => simp [hc]
    | grant => exact absurd hc (hdec sn hsn)
  have hsnd : (completePayment now txn s).2 = cpApply now txn s.payment s := by
    simp only [completePayment, cpLoad]
    cases hc : cpDecide now s.payment <;> simp [cpApply, hc]
  refine ⟨?_, ?_, hdec snap hs, happly snap s hs, ?_, ?_, ?_, ?_⟩
  · rw [hsnd]
    exact happly s.payment s h
  · intro hp
    have hd : cpDecide now s.payment = CpDecision.failExpired := by
      unfold cpDecide
      rw [if_neg (by simp [hp])]
      rw [if_pos (by simpa [paymentIsExpired] using h)]
    simp only [completePayment, cpLoad, cpApply, hd]
  · intro hnc
    unfold cpApply
    cases hc : cpDecide now snap with
    | rejectNotPending => simpa [hc] using hnc
    | failExpired => simp [hc, markAsFailed]
    | grant => exact absurd hc (hdec snap hs)
  · unfold cleanupPayment
    split <;> rfl
  · intro hp
    unfold cleanupPayment
    rw [if_pos ⟨hp, by omega⟩]
  · unfold cleanupPayment
    split
    · right
      rfl
    · left
      rfl

/-- C4 witness: a pending payment expired at 300, completed at time 400. -/
theorem expiredPayment_never_completed_witness :
    (400:Int) > c4Init.payment.expiredAt
    ∧ ((completePayment 400 "T" c4Init).2.keyCredit = c4Init.keyCredit
       ∧ (c4Init.payment.status = PayStatus.pending →
           completePayment 400 "T" c4Init =
             (Except.error CompleteError.expiredPayment,
              { c4Init with payment := markAsFailed c4Init.payment }))
       ∧ cpDecide 400 c4Init.payment ≠ CpDecision.grant
       ∧ (cpApply 400 "T" c4Init.payment c4Init).keyCredit = c4Init.keyCredit
       ∧ (c4Init.payment.status ≠ PayStatus.completed →
           (cpApply 400 "T" c4Init.payment c4Init).payment.status ≠ PayStatus.completed)
       ∧ (cleanupPayment 400 c4Init).keyCredit = c4Init.keyCredit
       ∧ (c4Init.payment.status = PayStatus.pending →
           (cleanupPayment 400 c4Init).payment.status = PayStatus.expired)
       ∧ (cleanupPayment 400 c4Init = c4Init
          ∨ (cleanupPayment 400 c4Init).payment.status = PayStatus.expired)) :=
  ⟨by decide,
   expiredPayment_never_completed 400 "T" c4Init c4Init.payment (by decide) (by decide)⟩

/-- C6 counterexample: an incoming webhook reporting a paid order for a
concrete pending payment, delivered unverified (sigValid false).  The
handler behaves identically to the verified delivery: nothing on the path
computes or checks an HMAC, so no signature is verified before the
webhook-delivered status is acted upon.  Acting on that unverified status
means entering the paid branch, where the grant path itself is dead: the
Payment identifier is not in scope in unnamed/part_008, the lookup throws,
and the route answers 500 with no grant.  This refutes the claim as
stated: the status of an unverified payload steers the handler with no
signature ever checked. -/
theorem payosWebhook_no_verification :
    payosWebhook 0 c6Body false "T" (some c6State) = payosWebhook 0 c6Body true "T" (some c6State)
    ∧ payosWebhook 0 c6Body false "T" (some c6State)
        = (WebhookResp.serverError, some c6State, false)
    ∧ c6State.payment.status = PayStatus.pending := by
  refine ⟨rfl, by decide, rfl⟩

/-- C6 amended: the webhook route verifies nothing, so its behaviour is
independent of any signature verdict, and it can never trigger the credit
grant at all: the store is returned unchanged, completePayment is never
invoked, and the paid branch always answers 500 because the Payment
identifier is undefined in the route file.  No webhook payload, verified
or not, triggers a credit grant by itself -- through a dead grant path,
not through verification. -/
theorem payosWebhook_never_grants (now : Int) (body : WebhookBody) (txn : String)
    (store : Option PayLedgerState) (v1 v2 : Bool) :
    payosWebhook now body v1 txn store = payosWebhook now body v2 txn store
    ∧ (payosWebhook now body v1 txn store).2.1 = store
    ∧ (payosWebhook now body v1 txn store).2.2 = false
    ∧ ((payosWebhook now body v1 txn store).1 = WebhookResp.serverError ↔
        body.code = "00" ∧ body.status = "PAID") := by
  refine ⟨rfl, ?_, ?_, ?_⟩
  · unfold payosWebhook
    split <;> rfl
  · unfold payosWebhook
    split <;> rfl
  · unfold payosWebhook
    split
    · rename_i hc
      exact ⟨fun _ => hc, fun _ => rfl⟩
    · rename_i hc
      constructor
      · intro hcon
        exact WebhookResp.noConfusion hcon
      · intro hcon
        exact absurd hcon hc

/-- C6 witness for the amended theorem: a concrete paid-order webhook
behaves identically verified and unverified, and triggers no grant. -/
theorem payosWebhook_never_grants_witness :
    payosWebhook 3 c6Body true "T" (some c6State) = payosWebhook 3 c6Body false "T" (some c6State)
    ∧ (payosWebhook 3 c6Body true "T" (some c6State)).2.2 = false :=
  ⟨(payosWebhook_never_grants 3 c6Body "T" (some c6State) true false).1,
   (payosWebhook_never_grants 3 c6Body "T" (some c6State) true false).2.2.1⟩

/-- C9: requests with no assigned proxy or no constructible transport go
direct with nothing recorded and no proxy error; a proxied response (any
HTTP status) is returned with a success stat; a thrown proxied request
records the failure and is retried exactly once via a direct connection
precisely when the error is in the retryable network class, and every
non-retryable error propagates immediately; the retryable class is exactly
the five connection-level codes matched against the error code or
message. -/
theorem makeRequestWithProxy_fallback (p : ProxyRec) (e : JsError) (st : Nat) (b : String)
    (agentOk : Bool) (po dOut : FetchOutcome) :
    makeRequestWithProxy none agentOk po dOut =
      { result := fetchResult dOut, statsRecorded := [], usedProxy := false,
        retriedDirect := false }
    ∧ makeRequestWithProxy (some p) false po dOut =
      { result := fetchResult dOut, statsRecorded := [], usedProxy := false,
        retriedDirect := false }
    ∧ makeRequestWithProxy (some p) true (FetchOutcome.resp st b) dOut =
      { result := Except.ok (st, b), statsRecorded := [(p.pid, true)], usedProxy := true,
        retriedDirect := false }
    ∧ (shouldRetry e = true →
        makeRequestWithProxy (some p) true (FetchOutcome.netError e) dOut =
          { result := fetchResult dOut, statsRecorded := [(p.pid, false)], usedProxy := true,
            retriedDirect := true })
    ∧ (shouldRetry e = false →
        makeRequestWithProxy (some p) true (FetchOutcome.netError e) dOut =
          { result := Except.error e, statsRecorded := [(p.pid, false)], usedProxy := true,
            retriedDirect := false })
    ∧ (shouldRetry e = true ↔
        ∃ c ∈ retryableCodes, e.code = some c ∨ msgContains e.message c = true) := by
  refine ⟨rfl, rfl, rfl, ?_, ?_, ?_⟩
  · intro h
    simp [makeRequestWithProxy, h]
  · intro h
    simp [makeRequestWithProxy, h]
  · simp [shouldRetry, List.any_eq_true, Bool.or_eq_true, decide_eq_true_eq]

/-- C9 witness: a connection-reset error through a concrete proxy is
retried once directly. -/
theorem makeRequestWithProxy_fallback_witness :
    shouldRetry demoResetError = true
    ∧ makeRequestWithProxy (some demoProxy) true (FetchOutcome.netError demoResetError)
        (FetchOutcome.resp 200 "ok") =
      { result := fetchResult (FetchOutcome.resp 200 "ok"),
        statsRecorded := [(demoProxy.pid, false)], usedProxy := true, retriedDirect := true } :=
  ⟨by decide,
   (makeRequestWithProxy_fallback demoProxy demoResetError 200 "ok" true
      (FetchOutcome.netError demoResetError) (FetchOutcome.resp 200 "ok")).2.2.2.1
     (by decide)⟩

/-- C5 counterexample: two concurrent auto-assign calls, for the distinct
keys key-A and key-B, interleave as find-find-write-write on a pool with
one free proxy.  Both selection reads return proxy 1, so both calls report
outcome assigned for proxy 1; the second write then succeeds although
proxy 1 is no longer unassigned, silently overwriting the first binding.
The write is therefore not a compare-and-set conditioned on the proxy
being unassigned at write time, and two distinct keys were each told they
were bound to the same proxy. -/
theorem autoAssign_write_not_conditional :
    findAvailableProxy c5Init = some { pid := 1, isActive := true, assignedApiKey := none }
    ∧ (findAvailableProxy c5Init).map (fun p => AssignOutcome.assigned p.pid)
        = some (AssignOutcome.assigned 1)
    ∧ writeAssign 1 "key-A" c5Init =
        [{ pid := 1, isActive := true, assignedApiKey := some "key-A" }]
    ∧ proxyUnassigned { pid := 1, isActive := true, assignedApiKey := some "key-A" } = false
    ∧ c5AfterWrites = [{ pid := 1, isActive := true, assignedApiKey := some "key-B" }] := by
  refine ⟨by decide, by decide, by decide, by decide, by decide⟩

theorem writeAssign_pid_map (pid : Nat) (k : String) (ps : List ProxyRec) :
    (writeAssign pid k ps).map (fun p => p.pid) = ps.map (fun p => p.pid) := by
  induction ps with
  | nil => rfl
  | cons p ps ih =>
    simp only [writeAssign, List.map_cons] at ih ⊢
    refine congrArg₂ _ ?_ ih
    split <;> rfl

theorem assignOne_pid_map (k : String) (ps : List ProxyRec) :
    (assignOne k ps).2.map (fun p => p.pid) = ps.map (fun p => p.pid) := by
  unfold assignOne
  cases hfa : findAssignedProxy k ps with
  | some p => rfl
  | none =>
    cases hav : findAvailableProxy ps with
    | some p => exact writeAssign_pid_map p.pid k ps
    | none => rfl

theorem proxyUnassigned_write (k : String) (hk : k ≠ "") (p : ProxyRec) :
    proxyUnassigned { p with assignedApiKey := some k } = false := by
  simp [proxyUnassigned, hk]

theorem assignOne_preserves_taken (k : String) (hk : k ≠ "") (pid : Nat) (ps : List ProxyRec)
    (h : pidTaken pid ps) : pidTaken pid (assignOne k ps).2 := by
  unfold assignOne
  cases hfa : findAssignedProxy k ps with
  | some p => exact h
  | none =>
    cases hav : findAvailableProxy ps with
    | none => exact h
    | some p =>
      intro q hq hqpid
      obtain ⟨orig, ho, rfl⟩ := List.mem_map.mp hq
      by_cases hop : orig.pid = p.pid
      · rw [if_pos hop] at hqpid ⊢
        exact proxyUnassigned_write k hk orig
      · rw [if_neg hop] at hqpid ⊢
        exact h orig ho hqpid

theorem assignOne_assigned_taken (k : String) (hk : k ≠ "") (ps : List ProxyRec) (pid : Nat)
    (h : (assignOne k ps).1 = AssignOutcome.assigned pid) :
    pidTaken pid (assignOne k ps).2 := by
  unfold assignOne at h ⊢
  cases hfa : findAssignedProxy k ps with
  | some p =>
    rw [hfa] at h
    cases h
  | none =>
    rw [hfa] at h
    cases hav : findAvailableProxy ps with
    | none =>
      rw [hav] at h
      cases h
    | some p =>
      rw [hav] at h
      have hpid : p.pid = pid := by
        injection h
      intro q hq hqpid
      obtain ⟨orig, ho, rfl⟩ := List.mem_map.mp hq
      by_cases hop : orig.pid = p.pid
      · rw [if_pos hop]
        exact proxyUnassigned_write k hk orig
      · rw [if_neg hop] at hqpid ⊢
        exact absurd (hqpid.trans hpid.symm) hop

theorem assignOne_not_assigned_of_taken (k : String) (pid : Nat) (ps : List ProxyRec)
    (h : pidTaken pid ps) : (assignOne k ps).1 ≠ AssignOutcome.assigned pid := by
  unfold assignOne
  cases hfa : findAssignedProxy k ps with
  | some p =>
    intro hcon
    cases hcon
  | none =>
    cases hav : findAvailableProxy ps with
    | none =>
      intro hcon
      cases hcon
    | some p =>
      intro hcon
      have hpid : p.pid = pid := by
        injection hcon
      have hav2 : ps.find? (fun q => q.isActive && proxyUnassigned q) = some p := hav
      have hmem : p ∈ ps := List.mem_of_find?_eq_some hav2
      have hpun : proxyUnassigned p = true := by
        have := List.find?_some hav2
        simp only [Bool.and_eq_true] at this
        exact this.2
      rw [h p hmem hpid] at hpun
      cases hpun

theorem assignKeys_not_assigned_of_taken (keys : List String) (pid : Nat) (ps : List ProxyRec)
    (hkeys : ∀ k ∈ keys, k ≠ "") (h : pidTaken pid ps) :
    pid ∉ assignedPids (assignKeys keys ps).1 := by
  induction keys generalizing ps with
  | nil =>
    simp [assignKeys, assignedPids]
  | cons k rest ih =>
    simp only [assignKeys]
    intro hmem
    have hk : k ≠ "" := hkeys k (List.mem_cons_self k rest)
    have hrest : ∀ k2 ∈ rest, k2 ≠ "" := fun k2 h2 => hkeys k2 (List.mem_cons_of_mem k h2)
    have hnext : pidTaken pid (assignOne k ps).2 := assignOne_preserves_taken k hk pid ps h
    have hnotrest := ih (assignOne k ps).2 hrest hnext
    cases hout : (assignOne k ps).1 with
    | assigned pid2 =>
      rw [hout] at hmem
      simp only [assignedPids, List.filterMap_cons] at hmem
      rcases List.mem_cons.mp hmem with rfl | hmem2
      · exact assignOne_not_assigned_of_taken k pid ps h (by rw [hout])
      · exact hnotrest hmem2
    | alreadyAssigned pid2 =>
      rw [hout] at hmem
      simp only [assignedPids, List.filterMap_cons] at hmem
      exact hnotrest hmem
    | noProxyAvailable =>
      rw [hout] at hmem
      simp only [assignedPids, List.filterMap_cons] at hmem
      exact hnotrest hmem

/-- C5 amended: the stored assignedApiKey field can, by construction, name
at most one key per proxy, and a sequential run of the auto-assign loop
never reports the same proxy as freshly assigned to two keys, because the
availability read filters out bound proxies; the pool membership is
unchanged by the run.  The binding write itself is, however, unconditional
rather than a compare-and-set, so concurrent interleavings can report one
proxy assigned to two keys (see the counterexample). -/
theorem autoAssign_sequential_unique (keys : List String) (ps : List ProxyRec)
    (hkeys : ∀ k ∈ keys, k ≠ "") :
    (assignedPids (assignKeys keys ps).1).Nodup
    ∧ (assignKeys keys ps).2.map (fun p => p.pid) = ps.map (fun p => p.pid) := by
  induction keys generalizing ps with
  | nil =>
    exact ⟨List.nodup_nil, rfl⟩
  | cons k rest ih =>
    have hk : k ≠ "" := hkeys k (List.mem_cons_self k rest)
    have hrest : ∀ k2 ∈ rest, k2 ≠ "" := fun k2 h2 => hkeys k2 (List.mem_cons_of_mem k h2)
    obtain ⟨ihnd, ihmap⟩ := ih (assignOne k ps).2 hrest
    constructor
    · simp only [assignKeys]
      cases hout : (assignOne k ps).1 with
      | assigned pid2 =>
        simp only [assignedPids, List.filterMap_cons]
        rw [List.nodup_cons]
        refine ⟨?_, ihnd⟩
        exact assignKeys_not_assigned_of_taken rest pid2 (assignOne k ps).2 hrest
          (assignOne_assigned_taken k hk ps pid2 hout)
      | alreadyAssigned pid2 =>
        simpa [assignedPids, List.filterMap_cons] using ihnd
      | noProxyAvailable =>
        simpa [assignedPids, List.filterMap_cons] using ihnd
    · simp only [assignKeys]
      rw [ihmap, assignOne_pid_map]

/-- C5 witness for the amended theorem: a sequential run over two keys and
two free proxies binds distinct proxies. -/
theorem autoAssign_sequential_unique_witness :
    (∀ k ∈ ["key-A", "key-B"], k ≠ "")
    ∧ ((assignedPids (assignKeys ["key-A", "key-B"] c5Pool2).1).Nodup
       ∧ (assignKeys ["key-A", "key-B"] c5Pool2).2.map (fun p => p.pid)
          = c5Pool2.map (fun p => p.pid)) :=
  ⟨by decide, autoAssign_sequential_unique ["key-A", "key-B"] c5Pool2 (by decide)⟩

theorem keyContains_iff (l : List String) (a : String) : l.contains a = true ↔ a ∈ l := by
  constructor
  · intro h
    exact List.mem_of_elem_eq_true h
  · intro h
    exact List.elem_eq_true_of_mem h

theorem addMissingStatus_cons (k : String) (l : List String) (ks : List KeyStatus) :
    addMissingStatus (k :: l) ks =
      addMissingStatus l
        (if ks.any (fun s => s.key = k) then ks else ks ++ [freshKeyStatus k]) := rfl

theorem addMissingStatus_append (l : List String) (ks : List KeyStatus) :
    ∃ t, addMissingStatus l ks = ks ++ t
      ∧ ∀ s ∈ t, s = freshKeyStatus s.key ∧ s.key ∈ l := by
  induction l generalizing ks with
  | nil => exact ⟨[], by simp [addMissingStatus], by simp⟩
  | cons k l ih =>
    rw [addMissingStatus_cons]
    by_cases hany : ks.any (fun s => s.key = k) = true
    · rw [if_pos hany]
      obtain ⟨t, ht1, ht2⟩ := ih ks
      exact ⟨t, ht1, fun s hs => ⟨(ht2 s hs).1, List.mem_cons_of_mem k (ht2 s hs).2⟩⟩
    · rw [if_neg hany]
      obtain ⟨t, ht1, ht2⟩ := ih (ks ++ [freshKeyStatus k])
      refine ⟨freshKeyStatus k :: t, ?_, ?_⟩
      · rw [ht1, List.append_assoc]
        rfl
      · intro s hs
        rcases List.mem_cons.mp hs with rfl | hs2
        · exact ⟨rfl, List.mem_cons_self k l⟩
        · exact ⟨(ht2 s hs2).1, List.mem_cons_of_mem k (ht2 s hs2).2⟩

theorem mem_key_addMissingStatus (l : List String) (k : String) (hk : k ∈ l)
    (ks : List KeyStatus) : ∃ s ∈ addMissingStatus l ks, s.key = k := by
  induction l generalizing ks with
  | nil => cases hk
  | cons k0 l ih =>
    rw [addMissingStatus_cons]
    rcases List.mem_cons.mp hk with rfl | hk2
    · by_cases hany : ks.any (fun s => s.key = k) = true
      · rw [if_pos hany]
        obtain ⟨s, hs, hp⟩ := List.any_eq_true.mp hany
        obtain ⟨t, ht1, _⟩ := addMissingStatus_append l ks
        exact ⟨s, by rw [ht1]; exact List.mem_append_left t hs, of_decide_eq_true hp⟩
      · rw [if_neg hany]
        obtain ⟨t, ht1, _⟩ := addMissingStatus_append l (ks ++ [freshKeyStatus k])
        refine ⟨freshKeyStatus k, ?_, rfl⟩
        rw [ht1]
        exact List.mem_append_left t (List.mem_append_right ks (List.mem_singleton_self _))
    · by_cases hany : ks.any (fun s => s.key = k0) = true
      · rw [if_pos hany]
        exact ih hk2 ks
      · rw [if_neg hany]
        exact ih hk2 _

theorem addMissingStatus_eq_self (l : List String) (ks : List KeyStatus)
    (h : ∀ k ∈ l, ∃ s ∈ ks, s.key = k) : addMissingStatus l ks = ks := by
  induction l with
  | nil => rfl
  | cons k0 l ih =>
    rw [addMissingStatus_cons]
    have hany : ks.any (fun s => s.key = k0) = true := by
      obtain ⟨s, hs, hk⟩ := h k0 (List.mem_cons_self k0 l)
      exact List.any_eq_true.mpr ⟨s, hs, decide_eq_true hk⟩
    rw [if_pos hany]
    exact ih fun k hk => h k (List.mem_cons_of_mem k0 hk)

theorem syncKeyStatus_key_mem (apiKeys : List String) (ks : List KeyStatus) :
    ∀ s ∈ syncKeyStatus apiKeys ks, s.key ∈ apiKeys := by
  intro s hs
  exact (keyContains_iff apiKeys s.key).mp (List.mem_filter.mp hs).2

theorem syncKeyStatus_covers (apiKeys : List String) (ks : List KeyStatus) :
    ∀ k ∈ apiKeys, ∃ s ∈ syncKeyStatus apiKeys ks, s.key = k := by
  intro k hk
  obtain ⟨s, hs, hkey⟩ := mem_key_addMissingStatus apiKeys k hk ks
  refine ⟨s, List.mem_filter.mpr ⟨hs, ?_⟩, hkey⟩
  rw [hkey]
  exact (keyContains_iff apiKeys k).mpr hk

theorem syncKeyStatus_idem (apiKeys : List String) (ks : List KeyStatus) :
    syncKeyStatus apiKeys (syncKeyStatus apiKeys ks) = syncKeyStatus apiKeys ks := by
  have hstep : syncKeyStatus apiKeys (syncKeyStatus apiKeys ks) =
      (addMissingStatus apiKeys (syncKeyStatus apiKeys ks)).filter
        (fun s => apiKeys.contains s.key) := rfl
  rw [hstep, addMissingStatus_eq_self _ _ (syncKeyStatus_covers apiKeys ks)]
  exact List.filter_eq_self.mpr fun s hs =>
    (keyContains_iff apiKeys s.key).mpr (syncKeyStatus_key_mem apiKeys ks s hs)

theorem syncKeyStatus_fresh (apiKeys : List String) (ks : List KeyStatus) :
    ∀ s ∈ syncKeyStatus apiKeys ks, s ∉ ks → s = freshKeyStatus s.key := by
  intro s hs hn
  have hs2 := (List.mem_filter.mp hs).1
  obtain ⟨t, ht1, ht2⟩ := addMissingStatus_append apiKeys ks
  rw [ht1] at hs2
  rcases List.mem_append.mp hs2 with h | h
  · exact absurd h hn
  · exact (ht2 s h).1

theorem any_key_eq_false_iff (ks : List KeyStatus) (k : String) :
    ks.any (fun s => s.key = k) = false ↔ k ∉ ks.map (fun s => s.key) := by
  constructor
  · intro h hmem
    obtain ⟨s, hs, hkey⟩ := List.mem_map.mp hmem
    have h2 : ks.any (fun s => s.key = k) = true :=
      List.any_eq_true.mpr ⟨s, hs, decide_eq_true hkey⟩
    rw [h] at h2
    cases h2
  · intro h
    by_contra hne
    have h2 : ks.any (fun s => s.key = k) = true := by
      cases hb : ks.any (fun s => s.key = k) with
      | false => exact absurd hb hne
      | true => rfl
    obtain ⟨s, hs, hp⟩ := List.any_eq_true.mp h2
    exact h (List.mem_map.mpr ⟨s, hs, of_decide_eq_true hp⟩)

theorem addMissingStatus_nodup (l : List String) (ks : List KeyStatus)
    (h : (ks.map (fun s => s.key)).Nodup) :
    ((addMissingStatus l ks).map (fun s => s.key)).Nodup := by
  induction l generalizing ks with
  | nil => exact h
  | cons k0 l ih =>
    rw [addMissingStatus_cons]
    by_cases hany : ks.any (fun s => s.key = k0) = true
    · rw [if_pos hany]
      exact ih ks h
    · rw [if_neg hany]
      apply ih
      have hnk : k0 ∉ ks.map (fun s => s.key) :=
        (any_key_eq_false_iff ks k0).mp (Bool.eq_false_iff.mpr hany)
      rw [List.map_append]
      rw [List.nodup_append]
      refine ⟨h, List.nodup_singleton k0, ?_⟩
      intro x hx hx2
      rw [List.mem_singleton.mp hx2] at hx
      exact hnk hx

theorem syncKeyStatus_nodup (apiKeys : List String) (ks : List KeyStatus)
    (h : (ks.map (fun s => s.key)).Nodup) :
    ((syncKeyStatus apiKeys ks).map (fun s => s.key)).Nodup := by
  have h2 := addMissingStatus_nodup apiKeys ks h
  have hfil : syncKeyStatus apiKeys ks =
      (addMissingStatus apiKeys ks).filter (fun s => apiKeys.contains s.key) := rfl
  rw [hfil]
  exact h2.sublist
    ((List.filter_sublist (addMissingStatus apiKeys ks)).map (fun s : KeyStatus => s.key))

/-- C8 counterexample: a status list holding two entries for the same key
(as two concurrent sync runs that both miss and both append would leave
behind, or a direct edit).  A single syncKeyStatus run keeps both:
afterwards the key k has two entries, not exactly one.  The run is also a
fixed point here, so the duplicate never goes away. -/
theorem syncKeyStatus_duplicates_persist :
    syncKeyStatus ["k"] c8Dup = c8Dup
    ∧ c8Dup.countP (fun s => s.key = "k") = 2
    ∧ (2 : Nat) ≠ 1 := ⟨by decide, by decide, by decide⟩

/-- C8 amended: syncKeyStatus is idempotent, and after any single run every
configured key has at least one status entry, every entry belongs to a
configured key, and newly created entries are fresh (active, quota clear,
no errors, zero request count).  Exactly one entry per key additionally
needs the incoming list to hold at most one entry per key (no duplicate
keys): the run never merges pre-existing duplicate entries (see the
counterexample), it only preserves duplicate-freedom. -/
theorem syncKeyStatus_reconciles (apiKeys : List String) (ks : List KeyStatus)
    (hnd : (ks.map (fun s => s.key)).Nodup) :
    syncKeyStatus apiKeys (syncKeyStatus apiKeys ks) = syncKeyStatus apiKeys ks
    ∧ (∀ s ∈ syncKeyStatus apiKeys ks, s.key ∈ apiKeys)
    ∧ (∀ k ∈ apiKeys, ∃ s ∈ syncKeyStatus apiKeys ks, s.key = k)
    ∧ (∀ s ∈ syncKeyStatus apiKeys ks, s ∉ ks → s = freshKeyStatus s.key)
    ∧ ((syncKeyStatus apiKeys ks).map (fun s => s.key)).Nodup :=
  ⟨syncKeyStatus_idem apiKeys ks, syncKeyStatus_key_mem apiKeys ks,
   syncKeyStatus_covers apiKeys ks, syncKeyStatus_fresh apiKeys ks,
   syncKeyStatus_nodup apiKeys ks hnd⟩

/-- C8 witness for the amended theorem: one stale entry dropped, one key
added, run at a concrete provider state. -/
theorem syncKeyStatus_reconciles_witness :
    (([freshKeyStatus "a", freshKeyStatus "c"].map (fun s => s.key)).Nodup)
    ∧ (syncKeyStatus ["a", "b"]
         (syncKeyStatus ["a", "b"] [freshKeyStatus "a", freshKeyStatus "c"])
         = syncKeyStatus ["a", "b"] [freshKeyStatus "a", freshKeyStatus "c"]
       ∧ (∀ s ∈ syncKeyStatus ["a", "b"] [freshKeyStatus "a", freshKeyStatus "c"],
            s.key ∈ ["a", "b"])
       ∧ (∀ k ∈ ["a", "b"],
            ∃ s ∈ syncKeyStatus ["a", "b"] [freshKeyStatus "a", freshKeyStatus "c"],
              s.key = k)
       ∧ (∀ s ∈ syncKeyStatus ["a", "b"] [freshKeyStatus "a", freshKeyStatus "c"],
            s ∉ [freshKeyStatus "a", freshKeyStatus "c"] → s = freshKeyStatus s.key)
       ∧ ((syncKeyStatus ["a", "b"]
             [freshKeyStatus "a", freshKeyStatus "c"]).map (fun s => s.key)).Nodup) :=
  ⟨by decide,
   syncKeyStatus_reconciles ["a", "b"] [freshKeyStatus "a", freshKeyStatus "c"] (by decide)⟩

theorem argminAcc_isSome (f : α → Int) (l : List α) :
    ∀ a : α, ∃ r, argminAcc f (some a) l = some r := by
  induction l with
  | nil => exact fun a => ⟨a, rfl⟩
  | cons x xs ih => exact fun a => ih (if f x < f a then x else a)

theorem argminAcc_spec (f : α → Int) (l : List α) :
    ∀ (acc : Option α) (r : α), argminAcc f acc l = some r →
      (acc = some r ∨ r ∈ l)
      ∧ (∀ a, acc = some a → f r ≤ f a)
      ∧ (∀ x ∈ l, f r ≤ f x) := by
  induction l with
  | nil =>
    intro acc r h
    cases acc with
    | none => exact Option.noConfusion h
    | some a =>
      have hacc : (some a : Option α) = some r := h
      injection hacc with hacc
      subst hacc
      refine ⟨Or.inl rfl, ?_, ?_⟩
      · intro b hb
        injection hb with hb
        subst hb
        exact le_refl _
      · intro x hx
        cases hx
  | cons x xs ih =>
    intro acc r h
    cases acc with
    | none =>
      have h2 := ih (some x) r h
      refine ⟨Or.inr ?_, ?_, ?_⟩
      · rcases h2.1 with hx | hxs
        · injection hx with hx
          subst hx
          exact List.mem_cons_self x xs
        · exact List.mem_cons_of_mem x hxs
      · intro a ha
        cases ha
      · intro y hy
        rcases List.mem_cons.mp hy with rfl | hmem
        · exact h2.2.1 y rfl
        · exact h2.2.2 y hmem
    | some a0 =>
      have hred : argminAcc f (some a0) (x :: xs) =
          argminAcc f (some (if f x < f a0 then x else a0)) xs := rfl
      rw [hred] at h
      by_cases hlt : f x < f a0
      · rw [if_pos hlt] at h
        have h2 := ih (some x) r h
        have hrx : f r ≤ f x := h2.2.1 x rfl
        refine ⟨Or.inr ?_, ?_, ?_⟩
        · rcases h2.1 with hx | hxs
          · injection hx with hx
            subst hx
            exact List.mem_cons_self x xs
          · exact List.mem_cons_of_mem x hxs
        · intro a ha
          injection ha with ha
          subst ha
          exact le_trans hrx (le_of_lt hlt)
        · intro y hy
          rcases List.mem_cons.mp hy with rfl | hmem
          · exact hrx
          · exact h2.2.2 y hmem
      · rw [if_neg hlt] at h
        have h2 := ih (some a0) r h
        have hra : f r ≤ f a0 := h2.2.1 a0 rfl
        refine ⟨?_, ?_, ?_⟩
        · rcases h2.1 with hx | hxs
          · exact Or.inl hx
          · exact Or.inr (List.mem_cons_of_mem x hxs)
        · intro a ha
          injection ha with ha
          subst ha
          exact hra
        · intro y hy
          rcases List.mem_cons.mp hy with rfl | hmem
          · exact le_trans hra (le_of_not_lt hlt)
          · exact h2.2.2 y hmem

theorem argminFirst_spec (f : α → Int) (l : List α) (r : α) (h : argminFirst f l = some r) :
    r ∈ l ∧ ∀ x ∈ l, f r ≤ f x := by
  have h2 := argminAcc_spec f l none r h
  rcases h2.1 with hno | hm
  · cases hno
  · exact ⟨hm, h2.2.2⟩

theorem argminFirst_of_ne_nil (f : α → Int) (l : List α) (h : l ≠ []) :
    ∃ r, argminFirst f l = some r := by
  cases l with
  | nil => exact absurd rfl h
  | cons x xs => exact argminAcc_isSome f xs x

theorem syncKeyStatus_nil_keys (ks : List KeyStatus) : syncKeyStatus [] ks = [] := by
  have hfil : ∀ l : List KeyStatus,
      l.filter (fun s => ([] : List String).contains s.key) = [] := by
    intro l
    induction l with
    | nil => rfl
    | cons x xs ih =>
      rw [List.filter_cons, if_neg]
      · exact ih
      · intro hcon
        exact Bool.noConfusion hcon
  have hstep : syncKeyStatus [] ks = ks.filter (fun s => ([] : List String).contains s.key) :=
    rfl
  rw [hstep]
  exact hfil ks

theorem availableOf_ne_nil_keys (p : Provider) (h : availableOf p ≠ []) : p.apiKeys ≠ [] := by
  intro hk
  apply h
  unfold availableOf syncedStatus
  rw [hk, syncKeyStatus_nil_keys]
  rfl

theorem activesOf_ne_nil_keys (p : Provider) (h : activesOf p ≠ []) : p.apiKeys ≠ [] := by
  intro hk
  apply h
  unfold activesOf syncedStatus
  rw [hk, syncKeyStatus_nil_keys]
  rfl

theorem availableOf_subset_actives (p : Provider) : ∀ s ∈ availableOf p, s ∈ activesOf p := by
  intro s hs
  have h2 := List.mem_filter.mp hs
  refine List.mem_filter.mpr ⟨h2.1, ?_⟩
  exact ((Bool.and_eq_true _ _).mp h2.2).1

theorem getBestApiKey_of_avail (p : Provider) (h : availableOf p ≠ []) :
    ∃ s, s ∈ availableOf p ∧ getBestApiKey (some p) = Except.ok s.key
      ∧ ∀ t ∈ availableOf p, usedMeasure s ≤ usedMeasure t := by
  obtain ⟨r, hr⟩ := argminFirst_of_ne_nil usedMeasure (availableOf p) h
  obtain ⟨hmem, hmin⟩ := argminFirst_spec usedMeasure (availableOf p) r hr
  refine ⟨r, hmem, ?_, hmin⟩
  simp only [getBestApiKey]
  rw [if_neg (availableOf_ne_nil_keys p h), hr]

theorem getBestApiKey_of_fallback (p : Provider) (hav : availableOf p = [])
    (hact : activesOf p ≠ []) :
    ∃ s, s ∈ activesOf p ∧ getBestApiKey (some p) = Except.ok s.key
      ∧ ∀ t ∈ activesOf p, errMeasure s ≤ errMeasure t := by
  obtain ⟨r, hr⟩ := argminFirst_of_ne_nil errMeasure (activesOf p) hact
  obtain ⟨hmem, hmin⟩ := argminFirst_spec errMeasure (activesOf p) r hr
  refine ⟨r, hmem, ?_, hmin⟩
  simp only [getBestApiKey]
  rw [if_neg (activesOf_ne_nil_keys p hact), hav]
  rw [show argminFirst usedMeasure ([] : List KeyStatus) = none from rfl, hr]

theorem applyKeyError_quota (now2 : Int) (et msg : String) (s : KeyStatus)
    (hsig : quotaSignal et msg = true) :
    (applyKeyError now2 et msg s).quotaExceeded = true := by
  simp only [applyKeyError]
  rw [if_pos hsig]
  split <;> rfl

theorem applyKeyError_key (now2 : Int) (et msg : String) (s : KeyStatus) :
    (applyKeyError now2 et msg s).key = s.key := by
  simp only [applyKeyError]
  split <;> split <;> rfl

theorem markKeyError_quota (k0 et msg : String) (now2 : Int) (ks : List KeyStatus)
    (hnd : (ks.map (fun s => s.key)).Nodup) (hsig : quotaSignal et msg = true) :
    ∀ s ∈ markKeyError k0 et msg now2 ks, s.key = k0 → s.quotaExceeded = true := by
  induction ks with
  | nil =>
    intro s hs
    cases hs
  | cons x xs ih =>
    intro s hs hkey
    have hnd2 : (xs.map (fun s => s.key)).Nodup := (List.nodup_cons.mp hnd).2
    have hhead : x.key ∉ xs.map (fun s => s.key) := (List.nodup_cons.mp hnd).1
    by_cases hx : x.key = k0
    · have hred : markKeyError k0 et msg now2 (x :: xs) =
          applyKeyError now2 et msg x :: xs := by
        show updateFirst (fun s => s.key = k0) (applyKeyError now2 et msg) (x :: xs) =
          applyKeyError now2 et msg x :: xs
        simp only [updateFirst]
        rw [if_pos (decide_eq_true hx)]
      rw [hred] at hs
      rcases List.mem_cons.mp hs with rfl | hs2
      · exact applyKeyError_quota now2 et msg x hsig
      · exfalso
        apply hhead
        rw [hx]
        rw [← hkey]
        exact List.mem_map.mpr ⟨s, hs2, rfl⟩
    · have hred : markKeyError k0 et msg now2 (x :: xs) =
          x :: markKeyError k0 et msg now2 xs := by
        show updateFirst (fun s => s.key = k0) (applyKeyError now2 et msg) (x :: xs) =
          x :: updateFirst (fun s => s.key = k0) (applyKeyError now2 et msg) xs
        simp only [updateFirst]
        rw [if_neg]
        intro hcon
        exact hx (of_decide_eq_true hcon)
      rw [hred] at hs
      rcases List.mem_cons.mp hs with rfl | hs2
      · exact absurd hkey hx
      · exact ih hnd2 s hs2 hkey

/-- C7: getBestApiKey prefers, among active non-quota-exceeded entries of
the synced status list, one with minimal lastUsed (a missing date counts as
the epoch, so never-used keys come first); when that set is empty it falls
back to an active entry with minimal lastErrorTime; it fails hard exactly
when the provider is missing, has no configured keys, or has no active
entry; a key all of whose entries are quota-exceeded is never selected
while any available entry exists; and a 429/quota error marked through
markKeyError sets quotaExceeded on the key's entry, so the key is skipped
from then on while an alternative exists. -/
theorem getBestApiKey_selection (p : Provider) :
    (availableOf p ≠ [] →
       ∃ s, s ∈ availableOf p ∧ getBestApiKey (some p) = Except.ok s.key
         ∧ ∀ t ∈ availableOf p, usedMeasure s ≤ usedMeasure t)
    ∧ (availableOf p = [] → activesOf p ≠ [] →
       ∃ s, s ∈ activesOf p ∧ getBestApiKey (some p) = Except.ok s.key
         ∧ ∀ t ∈ activesOf p, errMeasure s ≤ errMeasure t)
    ∧ getBestApiKey none = Except.error KeySelectError.noKeysConfigured
    ∧ (p.apiKeys = [] →
        getBestApiKey (some p) = Except.error KeySelectError.noKeysConfigured)
    ∧ (p.apiKeys ≠ [] → activesOf p = [] →
        getBestApiKey (some p) = Except.error KeySelectError.allExhausted)
    ∧ (∀ k0, (∀ s ∈ syncedStatus p, s.key = k0 → s.quotaExceeded = true) →
        availableOf p ≠ [] → getBestApiKey (some p) ≠ Except.ok k0)
    ∧ (∀ (ks : List KeyStatus) (k0 et msg : String) (now2 : Int),
        (ks.map (fun s => s.key)).Nodup → quotaSignal et msg = true →
        ∀ s ∈ markKeyError k0 et msg now2 ks, s.key = k0 → s.quotaExceeded = true)
    ∧ (∀ et msg : String, msgContains msg "429" = true → quotaSignal et msg = true) := by
  refine ⟨getBestApiKey_of_avail p, getBestApiKey_of_fallback p, rfl, ?_, ?_, ?_, ?_, ?_⟩
  · intro hk
    simp only [getBestApiKey]
    rw [if_pos hk]
  · intro hne hact
    have hav : availableOf p = [] := by
      rcases hcase : availableOf p with _ | ⟨s, rest⟩
      · rfl
      · exfalso
        have hs : s ∈ availableOf p := by
          rw [hcase]
          exact List.mem_cons_self s rest
        have := availableOf_subset_actives p s hs
        rw [hact] at this
        cases this
    simp only [getBestApiKey]
    rw [if_neg hne, hav, hact]
    rw [show argminFirst usedMeasure ([] : List KeyStatus) = none from rfl]
    rw [show argminFirst errMeasure ([] : List KeyStatus) = none from rfl]
  · intro k0 hq ha hcon
    obtain ⟨s, hmem, heq, _⟩ := getBestApiKey_of_avail p ha
    rw [heq] at hcon
    injection hcon with hcon
    have h2 := List.mem_filter.mp hmem
    have hquota : s.quotaExceeded = false := by
      have h3 := (Bool.and_eq_true _ _).mp h2.2
      have h4 := h3.2
      rw [Bool.not_eq_true'] at h4
      exact h4
    have h5 := hq s h2.1 hcon
    rw [h5] at hquota
    cases hquota
  · intro ks k0 et msg now2 hnd hsig
    exact markKeyError_quota k0 et msg now2 ks hnd hsig
  · intro et msg h
    simp [quotaSignal, h]

/-- C7 witness: a provider with a quota-exceeded key gk-1 and a clear key
gk-2: selection skips gk-1 and returns gk-2. -/
theorem getBestApiKey_selection_witness :
    availableOf c7Provider ≠ []
    ∧ (∀ s ∈ syncedStatus c7Provider, s.key = "gk-1" → s.quotaExceeded = true)
    ∧ getBestApiKey (some c7Provider) ≠ Except.ok "gk-1"
    ∧ getBestApiKey (some c7Provider) = Except.ok "gk-2" :=
  ⟨by decide, by decide,
   (getBestApiKey_selection c7Provider).2.2.2.2.2.1 "gk-1" (by decide) (by decide),
   by decide⟩

end KeyManagerBackend
